import Mathlib

/-!
Verification of the template acquisition and expansion engine of
`setup/new_subl_pkg.py` (mkdocs-pkg-base).

The Python source is shallowly embedded: strings are `List Char`, the
variable mapping is an association list, the filesystem is a partial map
from paths to file contents, and fallible operations return `Option` /
`Except`.  Each definition mirrors one Python function.
-/

namespace NewSublPkg

/-- Embeds `dict.get(k)` on `template.variables`: first matching key wins
(a Python dict has unique keys, so an association-list lookup agrees). -/
def lookupVar (vars : List (List Char × List Char)) (n : List Char) : Option (List Char) :=
  match vars with
  | [] => none
  | (k, v) :: rest => if k = n then some v else lookupVar rest n

/-- One attempt of the regex `{{([^}]+)}}` at the current position, given the
characters `rest` that follow a literal `{{`.  Greedy `[^}]+` takes the
maximal run of non-`}` characters; the match succeeds iff that run is
non-empty and is immediately followed by `}}`.  Returns the captured group
and the characters after the match. -/
def matchTok (rest : List Char) : Option (List Char × List Char) :=
  if rest.takeWhile (fun c => c ≠ '}') ≠ [] ∧
      (rest.drop (rest.takeWhile (fun c => c ≠ '}')).length).take 2 = ['}', '}'] then
    some (rest.takeWhile (fun c => c ≠ '}'),
          (rest.drop (rest.takeWhile (fun c => c ≠ '}')).length).drop 2)
  else none

/-- Embeds the replacement lambda `expand`: look the captured name up in the
variables; on a miss produce the original token text `{{name}}`. -/
def renderTok (vars : List (List Char × List Char)) (name : List Char) : List Char :=
  match lookupVar vars name with
  | some v => v
  | none => '{' :: '{' :: (name ++ ['}', '}'])

/-- Embeds `re.sub(r"{{([^}]+)}}", expand, raw)`: scan left to right; at each
position where the pattern matches, emit the replacement and resume after the
match; otherwise emit one character and advance by one. -/
def pySub (vars : List (List Char × List Char)) : List Char → List Char
  | '{' :: '{' :: rest =>
    match h : matchTok rest with
    | some (name, rem) => renderTok vars name ++ pySub vars rem
    | none => '{' :: pySub vars ('{' :: rest)
  | c :: rest => c :: pySub vars rest
  | [] => []
termination_by l => l.length
decreasing_by
  · rw [matchTok] at h
    split at h
    · injection h with h'
      cases h'
      simp only [List.length_cons, List.length_drop]
      omega
    · cases h
  · simp only [List.length_cons]
    omega
  · simp only [List.length_cons]
    omega

/-- A segment of the scan performed by `re.sub`: either a single literal
character that is not part of any match, or one match of `{{([^}]+)}}`
recorded by its captured group. -/
inductive Seg where
  | lit (c : Char)
  | tok (name : List Char)
deriving DecidableEq

/-- The segment decomposition of an input under the scan of
`re.sub(r"{{([^}]+)}}", ...)`: it follows exactly the recursion of `pySub`
but records which characters are literals and which tokens matched. -/
def segs : List Char → List Seg
  | '{' :: '{' :: rest =>
    match h : matchTok rest with
    | some (name, rem) => Seg.tok name :: segs rem
    | none => Seg.lit '{' :: segs ('{' :: rest)
  | c :: rest => Seg.lit c :: segs rest
  | [] => []
termination_by l => l.length
decreasing_by
  · rw [matchTok] at h
    split at h
    · injection h with h'
      cases h'
      simp only [List.length_cons, List.length_drop]
      omega
    · cases h
  · simp only [List.length_cons]
    omega
  · simp only [List.length_cons]
    omega

/-- How `re.sub` renders one segment of the scan: a literal character passes
through; a matched token is replaced by the value of the replacement lambda,
i.e. `renderTok`. -/
def renderSeg (vars : List (List Char × List Char)) : Seg → List Char
  | Seg.lit c => [c]
  | Seg.tok name => renderTok vars name

/-- Concatenation of the rendered segments; `re.sub`'s output is the
rendering of the whole segment decomposition. -/
def renderAll (vars : List (List Char × List Char)) : List Seg → List Char
  | [] => []
  | s :: rest => renderSeg vars s ++ renderAll vars rest

/-! ## Path helpers (`os.path.split`, `os.path.join`) -/

/-- The second component of `os.path.split(p)`: everything after the last
path separator (the whole string when there is none). -/
def pathSplitFile (p : List Char) : List Char :=
  (p.reverse.takeWhile (fun c => c ≠ '/')).reverse

/-- Embeds the two-argument `os.path.join(a, b)` for the paths this program
builds: an absolute `b` replaces `a`; otherwise `b` is appended to `a`,
inserting a separator unless `a` is empty or already ends in one. -/
def pathJoin (a b : List Char) : List Char :=
  if b.head? = some '/' then b
  else if a = [] then b
  else if a.getLast? = some '/' then a ++ b
  else a ++ '/' :: b

/-! ## `expand_template`: per-file source/destination computation -/

/-- Embeds `KEY_CHARACTERS = string.ascii_uppercase + string.digits`. -/
def KEY_CHARACTERS : List Char :=
  ['A', 'B', 'C', 'D', 'E', 'F', 'G', 'H', 'I', 'J', 'K', 'L', 'M',
   'N', 'O', 'P', 'Q', 'R', 'S', 'T', 'U', 'V', 'W', 'X', 'Y', 'Z'] ++
  ['0', '1', '2', '3', '4', '5', '6', '7', '8', '9']

/-- Embeds `f'{dst_file}-{"".join(choices(KEY_CHARACTERS, k=12))}'`: the
temp-suffixed destination used for an in-place edit, with the random draw
made explicit as a parameter. -/
def tempDst (dst : List Char) (tag : List Char) : List Char :=
  dst ++ '-' :: tag

/-- The destination path `expand_template` hands to `handle_template_file`
for one file: the joined destination path, temp-suffixed exactly when it
collides with the joined source path. -/
def expandDst (source destination file tag : List Char) : List Char :=
  if pathJoin source file = pathJoin destination file then
    tempDst (pathJoin destination file) tag
  else pathJoin destination file

/-! ## `handle_template_file`: per-file action selection -/

/-- The action `handle_template_file` takes on one file. -/
inductive FileOp where
  /-- Binary file with differing filenames: report `SKIP`, write nothing. -/
  | skipBinary
  /-- Binary file with identical filenames: `copy2(src, dst)`, a
  byte-for-byte copy preserving permission/timestamp metadata. -/
  | copyBinary
  /-- Text file: expand into `dst`; `renamed` records whether the
  `unlink(src); rename(dst, src)` tail ran (filenames differed). -/
  | expandText (renamed : Bool)
deriving DecidableEq

/-- Embeds the branch structure of `handle_template_file`: split off the
filenames, then select the binary-skip / binary-copy / text-expand action. -/
def handle_template_file (isBin : Bool) (src dst : List Char) : FileOp :=
  if isBin then
    if pathSplitFile src ≠ pathSplitFile dst then FileOp.skipBinary
    else FileOp.copyBinary
  else FileOp.expandText (pathSplitFile src ≠ pathSplitFile dst)

/-! ## Filesystem model for the text-file path -/

/-- A filesystem: a partial map from paths to file contents. -/
def FS : Type := List Char → Option (List Char)

/-- Embeds opening `p` for writing and writing content `c`: create or
overwrite the file at `p`. -/
def fsWrite (fs : FS) (p c : List Char) : FS :=
  fun q => if q = p then some c else fs q

/-- Embeds `os.unlink(p)`: remove the file at `p`. -/
def fsUnlink (fs : FS) (p : List Char) : FS :=
  fun q => if q = p then none else fs q

/-- Embeds `os.rename(old, new)`: the content of `old` moves to `new`. -/
def fsRename (fs : FS) (old new' : List Char) : FS :=
  fun q => if q = new' then fs old else if q = old then none else fs q

/-- Embeds the text-file path of `handle_template_file` as a filesystem
transformer: read `src`, write the expanded content to `dst`
(`expand_template_contents`; `copystat` does not change contents), then,
when the filenames differ, `unlink(src)` and `rename(dst, src)`.
A missing source file is the Python `IOError`, modelled as `none`. -/
def handleTextFileFS (vars : List (List Char × List Char)) (fs : FS)
    (src dst : List Char) : Option FS :=
  match fs src with
  | none => none
  | some raw =>
    let fs1 := fsWrite fs dst (pySub vars raw)
    if pathSplitFile src ≠ pathSplitFile dst then
      some (fsRename (fsUnlink fs1 src) dst src)
    else
      some fs1

/-! ## `path_filter` -/

/-- Python truthiness of `args.skip`: `None` and the empty string are
falsy. -/
def pyTruthy : Option (List Char) → Bool
  | none => false
  | some s => s ≠ []

/-- Embeds `str.startswith` on our character-list strings. -/
def pyStartsWith (s p : List Char) : Bool :=
  p.isPrefixOf s

/-- Embeds `path_filter`: keep `n` iff `n` is truthy (non-empty) and either
no skip prefix is configured or `n` does not start with it. -/
def path_filter (skip : Option (List Char)) (file_list : List (List Char)) :
    List (List Char) :=
  file_list.filter (fun n => n ≠ [] ∧ (pyTruthy skip = false ∨
    pyStartsWith n (skip.getD []) = false))

/-- Embeds the skip normalization in `validate_arguments`:
`args.skip = join(args.skip, '')` appends a separator unless one is already
present (`os.path.join(p, '')`). -/
def normalizeSkip (s : List Char) : List Char :=
  if s.getLast? = some '/' then s else s ++ ['/']

/-! ## `execute_cmd` -/

/-- The observable outcome of `subprocess.run`. -/
structure ProcResult where
  returncode : Int
  stdout : List Char
  stderr : List Char

/-- Embeds `execute_cmd`: on exit status zero return captured stdout with
nothing printed; otherwise print the captured stderr and raise
`RuntimeError`.  The first component is the list of printed lines. -/
def execute_cmd (p : ProcResult) : List (List Char) × Except (List Char) (List Char) :=
  if p.returncode = 0 then ([], Except.ok p.stdout)
  else ([p.stderr], Except.error "task execution returned non-zero status".data)

/-! ## Top-level failure cleanup -/

/-- A cleanup side effect of the top-level `except:` handler. -/
inductive CleanupAction where
  | rmtree (path : List Char) (ignore_errors : Bool)
deriving DecidableEq

/-- Embeds the module entry `try/except`: run `get_input_file_list`, then
`expand_template`; on any failure of either, `rmtree(args.package,
ignore_errors=True)` and re-raise the same exception.  Returns the cleanup
actions performed and the final outcome. -/
def mainFlow {α : Type} (pkg : List Char)
    (get_input_file_list : Except (List Char) α)
    (expand_template : α → Except (List Char) Unit) :
    List CleanupAction × Except (List Char) Unit :=
  match get_input_file_list with
  | Except.error e => ([CleanupAction.rmtree pkg true], Except.error e)
  | Except.ok tpl =>
    match expand_template tpl with
    | Except.error e => ([CleanupAction.rmtree pkg true], Except.error e)
    | Except.ok _ => ([], Except.ok ())

/-! ## `name_to_slug` -/

/-- Embeds Python `str.isupper()` (over the ASCII range this program uses):
true iff the string has at least one cased character and no lowercase one. -/
def pyStrIsUpper (s : List Char) : Bool :=
  s.any (fun c => c.isAlpha) && s.all (fun c => !c.isAlpha || c.isUpper)

/-- The character loop of `name_to_slug`: an uppercase character that does
not continue a run of uppercase becomes a dash plus its lowercase form; any
other character is appended unchanged. -/
def slugLoop (acc : List Char) (last_upper : Bool) : List Char → List Char
  | [] => acc
  | c :: rest =>
    if c.isUpper && !last_upper then
      slugLoop (acc ++ ['-', c.toLower]) c.isUpper rest
    else
      slugLoop (acc ++ [c]) c.isUpper rest

/-- Embeds `name_to_slug`.  An all-uppercase name is lowercased wholesale;
otherwise the first character is lowercased and the rest go through
`slugLoop`.  (Python raises `IndexError` on the empty string; the claims
only concern non-empty inputs, so the `[]` case is mapped to `[]`.) -/
def name_to_slug : List Char → List Char
  | [] => []
  | c0 :: rest =>
    if pyStrIsUpper (c0 :: rest) then (c0 :: rest).map Char.toLower
    else slugLoop [c0.toLower] false rest

/-! ## Helper lemmas -/

theorem lookupVar_mem {vars : List (List Char × List Char)} {n v : List Char}
    (h : lookupVar vars n = some v) : (n, v) ∈ vars := by
  induction vars with
  | nil => cases h
  | cons kv rest ih =>
    obtain ⟨k, w⟩ := kv
    rw [lookupVar] at h
    split at h
    · rename_i hk
      injection h with h'
      subst h'
      subst hk
      exact List.mem_cons_self _ _
    · exact List.mem_cons_of_mem _ (ih h)

/-- The output of the scan is the concatenation of the rendered segments of
the decomposition: `re.sub` emits replacements for matches and literal
characters unchanged, in scan order. -/
theorem pySub_eq_renderAll (vars : List (List Char × List Char)) (l : List Char) :
    pySub vars l = renderAll vars (segs l) := by
  induction l using pySub.induct vars with
  | case1 rest name rem h ih =>
    rw [pySub, segs]
    rw [h]
    simp [renderAll, renderSeg, ih]
  | case2 rest h ih =>
    rw [pySub, segs]
    rw [h]
    simp [renderAll, renderSeg, ih]
  | case3 c rest h ih =>
    rw [pySub, segs]
    · simp [renderAll, renderSeg, ih]
    · exact h
    · exact h
  | case4 =>
    rw [pySub, segs]
    rfl

theorem renderSeg_isInfix_renderAll (vars : List (List Char × List Char))
    {s : Seg} {L : List Seg} (h : s ∈ L) :
    renderSeg vars s <:+: renderAll vars L := by
  induction L with
  | nil => cases h
  | cons hd tl ih =>
    rw [renderAll]
    rcases List.mem_cons.mp h with h' | h'
    · subst h'
      exact ⟨[], renderAll vars tl, by simp⟩
    · obtain ⟨s', t', hst⟩ := ih h'
      exact ⟨renderSeg vars hd ++ s', t', by rw [← hst]; simp⟩

theorem mem_renderAll {vars : List (List Char × List Char)} {c : Char}
    {L : List Seg} (h : c ∈ renderAll vars L) :
    ∃ s, s ∈ L ∧ c ∈ renderSeg vars s := by
  induction L with
  | nil => cases h
  | cons hd tl ih =>
    rw [renderAll] at h
    rcases List.mem_append.mp h with h' | h'
    · exact ⟨hd, List.mem_cons_self _ _, h'⟩
    · obtain ⟨s, hs, hc⟩ := ih h'
      exact ⟨s, List.mem_cons_of_mem _ hs, hc⟩

/-- The regex `{{([^}]+)}}` matches at the head of `n ++ "}}" ++ tail`
when `n` is a non-empty run of non-`}` characters, capturing exactly `n`. -/
theorem matchTok_token {n : List Char} (tail : List Char)
    (hne : n ≠ []) (hnb : ∀ c ∈ n, c ≠ '}') :
    matchTok (n ++ '}' :: '}' :: tail) = some (n, tail) := by
  have hp : ∀ c ∈ n, (fun c => decide (c ≠ '}')) c = true := by
    intro c hc
    simpa using hnb c hc
  have htw : (n ++ '}' :: '}' :: tail).takeWhile (fun c => c ≠ '}') = n := by
    rw [List.takeWhile_append_of_pos hp]
    simp
  rw [matchTok, htw, List.drop_left]
  simp [hne]

theorem key_chars_ne_slash : ∀ c ∈ KEY_CHARACTERS, c ≠ '/' := by decide

theorem pathSplitFile_append {l₁ l₂ : List Char} (h : ∀ c ∈ l₂, c ≠ '/') :
    pathSplitFile (l₁ ++ l₂) = pathSplitFile l₁ ++ l₂ := by
  unfold pathSplitFile
  rw [List.reverse_append]
  rw [List.takeWhile_append_of_pos]
  · rw [List.reverse_append, List.reverse_reverse]
  · intro a ha
    simp only [List.mem_reverse] at ha
    simpa using h a ha

theorem pathSplitFile_tempDst (src tag : List Char)
    (htag : ∀ c ∈ tag, c ∈ KEY_CHARACTERS) :
    pathSplitFile (tempDst src tag) = pathSplitFile src ++ '-' :: tag := by
  have hns : ∀ c ∈ ('-' :: tag), c ≠ '/' := by
    intro c hc
    rcases List.mem_cons.mp hc with h' | h'
    · subst h'
      decide
    · exact key_chars_ne_slash c (htag c h')
  exact pathSplitFile_append hns

theorem tempDst_ne_self (src tag : List Char) : tempDst src tag ≠ src := by
  intro heq
  have hl := congrArg List.length heq
  simp only [tempDst, List.length_append, List.length_cons] at hl
  omega

theorem pathSplitFile_tempDst_ne (src tag : List Char)
    (htag : ∀ c ∈ tag, c ∈ KEY_CHARACTERS) :
    pathSplitFile src ≠ pathSplitFile (tempDst src tag) := by
  rw [pathSplitFile_tempDst src tag htag]
  intro heq
  have hl := congrArg List.length heq
  simp only [List.length_append, List.length_cons] at hl
  omega

/-! ## Claim theorems -/

/-- C3: for every text input and variable mapping, every `{{Name}}` token of
the scan whose enclosed name is absent from the mapping reappears in the
expander's output as the exact original token text, unchanged. -/
theorem unknown_token_reappears (vars : List (List Char × List Char))
    (l n : List Char) (htok : Seg.tok n ∈ segs l)
    (habs : lookupVar vars n = none) :
    ('{' :: '{' :: (n ++ ['}', '}'])) <:+: pySub vars l := by
  rw [pySub_eq_renderAll]
  have h := renderSeg_isInfix_renderAll vars htok
  simpa only [renderSeg, renderTok, habs] using h

theorem unknown_token_reappears_witness :
    ('{' :: '{' :: (['X'] ++ ['}', '}'])) <:+:
      pySub [(['Y'], ['1'])] "a{{X}}b".data :=
  unknown_token_reappears [(['Y'], ['1'])] "a{{X}}b".data ['X']
    (by simp [segs, matchTok]) (by decide)

/-- C4, as stated, is false: the input `{{}}` contains no `{{Name}}` token
(the regex requires a non-empty name), so the hypothesis "every token's name
exists in the mapping" holds vacuously, yet the output still contains the
two-character sequence `{{`. -/
theorem surviving_braces_counterexample :
    segs ['{', '{', '}', '}'] =
      [Seg.lit '{', Seg.lit '{', Seg.lit '}', Seg.lit '}'] ∧
    pySub [] ['{', '{', '}', '}'] = ['{', '{', '}', '}'] ∧
    ['{', '{'] <:+: pySub [] ['{', '{', '}', '}'] := by
  have h2 : pySub [] ['{', '{', '}', '}'] = ['{', '{', '}', '}'] := by
    simp [pySub, matchTok, renderTok, lookupVar]
  refine ⟨?_, h2, ?_⟩
  · simp [segs, matchTok]
  · rw [h2]
    exact ⟨[], ['}', '}'], rfl⟩

/-- C4 (amended): for every text input in which every `{{Name}}` token's
name exists in the mapping, every `{` character of the input is part of a
token (the scan produces no literal `{`), and no mapping value contains `{`,
the output contains no occurrence of `{{`. -/
theorem all_tokens_known_no_braces (vars : List (List Char × List Char))
    (l : List Char)
    (h1 : ∀ n, Seg.tok n ∈ segs l → ∃ v, lookupVar vars n = some v)
    (h2 : Seg.lit '{' ∉ segs l)
    (h3 : ∀ k v, (k, v) ∈ vars → '{' ∉ v) :
    ¬ (['{', '{'] <:+: pySub vars l) := by
  intro hinf
  have hmem : '{' ∈ pySub vars l := hinf.subset (by simp)
  rw [pySub_eq_renderAll] at hmem
  obtain ⟨s, hs, hc⟩ := mem_renderAll hmem
  cases s with
  | lit c =>
    simp only [renderSeg, List.mem_singleton] at hc
    subst hc
    exact h2 hs
  | tok name =>
    obtain ⟨v, hv⟩ := h1 name hs
    simp only [renderSeg, renderTok, hv] at hc
    exact h3 name v (lookupVar_mem hv) hc

theorem all_tokens_known_no_braces_witness :
    ¬ (['{', '{'] <:+: pySub [(['X'], ['o', 'k'])] "a{{X}}b".data) := by
  have hsegs : segs "a{{X}}b".data = [Seg.lit 'a', Seg.tok ['X'], Seg.lit 'b'] := by
    simp [segs, matchTok]
  exact all_tokens_known_no_braces [(['X'], ['o', 'k'])] "a{{X}}b".data
    (by
      intro n hn
      rw [hsegs] at hn
      simp at hn
      subst hn
      exact ⟨['o', 'k'], rfl⟩)
    (by
      rw [hsegs]
      decide)
    (by
      intro k v hkv
      simp at hkv
      obtain ⟨-, hv⟩ := hkv
      subst hv
      decide)

/-- C5: expansion is single-pass and non-recursive.  When a token `{{n}}`
is matched and `n` maps to value `v`, the scan emits `v` verbatim and
resumes after the token: `v` is never re-scanned, even when it itself
contains a `{{X}}` token for a mapped `X`. -/
theorem expansion_is_single_pass (vars : List (List Char × List Char))
    (n v tail : List Char) (hv : lookupVar vars n = some v)
    (hne : n ≠ []) (hnb : ∀ c ∈ n, c ≠ '}') :
    pySub vars ('{' :: '{' :: (n ++ '}' :: '}' :: tail)) = v ++ pySub vars tail := by
  rw [pySub]
  split
  · rename_i name rem heq
    rw [matchTok_token tail hne hnb] at heq
    injection heq with heq
    injection heq with heq1 heq2
    subst heq1
    subst heq2
    rw [renderTok, hv]
  · rename_i heq
    rw [matchTok_token tail hne hnb] at heq
    cases heq

theorem expansion_is_single_pass_witness :
    pySub [(['A'], "{{B}}".data), (['B'], ['x'])]
        ('{' :: '{' :: (['A'] ++ '}' :: '}' :: [])) =
      "{{B}}".data ++ pySub [(['A'], "{{B}}".data), (['B'], ['x'])] [] :=
  expansion_is_single_pass [(['A'], "{{B}}".data), (['B'], ['x'])]
    ['A'] "{{B}}".data [] (by decide) (by decide) (by decide)

/-- C1, as stated, is false: for a binary file whose source and destination
filenames differ (the temp-suffixed in-place case), `handle_template_file`
does not copy — it reports the file as skipped; the copy happens exactly
when the filenames are identical. -/
theorem binary_copy_counterexample :
    handle_template_file true "/t/a.bin".data "/t/a.bin-AB12CD34EF56".data =
      FileOp.skipBinary ∧
    FileOp.skipBinary ≠ FileOp.copyBinary ∧
    pathSplitFile "/t/a.bin".data ≠ pathSplitFile "/t/a.bin-AB12CD34EF56".data := by
  decide

/-- C1 (amended): for every binary file, when the source and destination
filenames are identical (copy-out job) the file is copied byte-for-byte
with permission/timestamp metadata preserved (`copy2`); when the filenames
differ (temp-suffixed in-place job) no copy or write is performed and the
file is reported as skipped. -/
theorem binary_copy_amended (isBin : Bool) (src dst : List Char)
    (hbin : isBin = true) :
    (pathSplitFile src = pathSplitFile dst →
      handle_template_file isBin src dst = FileOp.copyBinary) ∧
    (pathSplitFile src ≠ pathSplitFile dst →
      handle_template_file isBin src dst = FileOp.skipBinary) := by
  subst hbin
  constructor
  · intro h
    simp [handle_template_file, h]
  · intro h
    simp [handle_template_file, h]

theorem binary_copy_amended_witness :
    (pathSplitFile "/src/a.bin".data = pathSplitFile "/dst/a.bin".data →
      handle_template_file true "/src/a.bin".data "/dst/a.bin".data =
        FileOp.copyBinary) ∧
    (pathSplitFile "/src/a.bin".data ≠ pathSplitFile "/dst/a.bin".data →
      handle_template_file true "/src/a.bin".data "/dst/a.bin".data =
        FileOp.skipBinary) :=
  binary_copy_amended true "/src/a.bin".data "/dst/a.bin".data rfl

/-- C2: for a text file processed in-place (destination is the temp-suffixed
source path), after `handle_template_file` completes exactly one file exists
at the original path, its content is the expanded content, no temp-suffixed
file remains, and no other path is touched: the original is deleted and the
temp file is renamed to the original name. -/
theorem inplace_text_single_file (vars : List (List Char × List Char))
    (fs : FS) (src tag raw : List Char)
    (_hlen : tag.length = 12)
    (htag : ∀ c ∈ tag, c ∈ KEY_CHARACTERS)
    (hread : fs src = some raw) :
    ∃ fs', handleTextFileFS vars fs src (tempDst src tag) = some fs' ∧
      fs' src = some (pySub vars raw) ∧
      fs' (tempDst src tag) = none ∧
      ∀ q, q ≠ src → q ≠ tempDst src tag → fs' q = fs q := by
  have hdst : tempDst src tag ≠ src := tempDst_ne_self src tag
  have hsplit : pathSplitFile src ≠ pathSplitFile (tempDst src tag) :=
    pathSplitFile_tempDst_ne src tag htag
  refine ⟨fsRename (fsUnlink (fsWrite fs (tempDst src tag) (pySub vars raw)) src)
      (tempDst src tag) src, ?_, ?_, ?_, ?_⟩
  · simp only [handleTextFileFS, hread]
    rw [if_pos hsplit]
  · simp [fsRename, fsUnlink, fsWrite, hdst]
  · simp [fsRename, fsUnlink, fsWrite, hdst]
  · intro q hq1 hq2
    simp [fsRename, fsUnlink, fsWrite, hq1, hq2]

theorem inplace_text_single_file_witness :
    ∃ fs', handleTextFileFS [(['X'], ['y'])]
        (fun q => if q = "/p/a.txt".data then some "hi {{X}}".data else none)
        "/p/a.txt".data (tempDst "/p/a.txt".data "AB12CD34EF56".data) = some fs' ∧
      fs' "/p/a.txt".data =
        some (pySub [(['X'], ['y'])] "hi {{X}}".data) ∧
      fs' (tempDst "/p/a.txt".data "AB12CD34EF56".data) = none ∧
      ∀ q, q ≠ "/p/a.txt".data →
        q ≠ tempDst "/p/a.txt".data "AB12CD34EF56".data →
        fs' q =
          (fun q => if q = "/p/a.txt".data then some "hi {{X}}".data else none) q :=
  inplace_text_single_file [(['X'], ['y'])]
    (fun q => if q = "/p/a.txt".data then some "hi {{X}}".data else none)
    "/p/a.txt".data "AB12CD34EF56".data "hi {{X}}".data
    (by decide) (by decide) (by decide)

/-- C6: with a configured (non-empty, separator-terminated) exclusion
prefix `P`, `path_filter` drops exactly the paths that are empty or start
with `P`, keeps every other path in the original relative order (the result
is a sublist of the input), and on the concrete scenario drops
`setup/build.py` while keeping `setup2/readme.md`. -/
theorem path_filter_spec (P : List Char) (l : List (List Char)) (hP : P ≠ []) :
    (∀ n, n ∈ path_filter (some P) l ↔
      n ∈ l ∧ n ≠ [] ∧ pyStartsWith n P = false) ∧
    (path_filter (some P) l).Sublist l ∧
    path_filter (some "setup/".data)
        ["setup/build.py".data, "setup2/readme.md".data] =
      ["setup2/readme.md".data] := by
  refine ⟨?_, List.filter_sublist _, by decide⟩
  intro n
  simp [path_filter, List.mem_filter, pyTruthy, hP, and_assoc]

theorem path_filter_spec_witness :
    (∀ n, n ∈ path_filter (some "setup/".data)
        ["setup/build.py".data, "setup2/readme.md".data, [], "x.py".data] ↔
      n ∈ ["setup/build.py".data, "setup2/readme.md".data, [], "x.py".data] ∧
        n ≠ [] ∧ pyStartsWith n "setup/".data = false) ∧
    (path_filter (some "setup/".data)
        ["setup/build.py".data, "setup2/readme.md".data, [], "x.py".data]).Sublist
      ["setup/build.py".data, "setup2/readme.md".data, [], "x.py".data] ∧
    path_filter (some "setup/".data)
        ["setup/build.py".data, "setup2/readme.md".data] =
      ["setup2/readme.md".data] :=
  path_filter_spec "setup/".data
    ["setup/build.py".data, "setup2/readme.md".data, [], "x.py".data]
    (by decide)

/-- C7: `execute_cmd` returns the captured stdout when the tool exits with
status zero; on a non-zero exit it prints the captured stderr and raises
`RuntimeError`, returning no value. -/
theorem execute_cmd_spec (p : ProcResult) :
    (p.returncode = 0 → execute_cmd p = ([], Except.ok p.stdout)) ∧
    (p.returncode ≠ 0 → execute_cmd p =
      ([p.stderr], Except.error "task execution returned non-zero status".data)) := by
  constructor
  · intro h
    simp [execute_cmd, h]
  · intro h
    simp [execute_cmd, h]

theorem execute_cmd_spec_witness :
    execute_cmd ⟨0, "out".data, "err".data⟩ = ([], Except.ok "out".data) ∧
    execute_cmd ⟨1, "out".data, "err".data⟩ =
      (["err".data], Except.error "task execution returned non-zero status".data) :=
  ⟨(execute_cmd_spec ⟨0, "out".data, "err".data⟩).1 rfl,
   (execute_cmd_spec ⟨1, "out".data, "err".data⟩).2 (by decide)⟩

/-- C8: if either `get_input_file_list` or `expand_template` fails, the
top-level handler removes the destination package directory recursively with
errors suppressed (`rmtree(..., ignore_errors=True)`) and re-raises the
original failure unchanged. -/
theorem cleanup_on_failure {α : Type} (pkg : List Char)
    (gil : Except (List Char) α) (exp : α → Except (List Char) Unit)
    (e : List Char) :
    (gil = Except.error e →
      mainFlow pkg gil exp =
        ([CleanupAction.rmtree pkg true], Except.error e)) ∧
    (∀ t, gil = Except.ok t → exp t = Except.error e →
      mainFlow pkg gil exp =
        ([CleanupAction.rmtree pkg true], Except.error e)) := by
  constructor
  · intro h
    subst h
    rfl
  · intro t h1 h2
    subst h1
    simp [mainFlow, h2]

theorem cleanup_on_failure_witness :
    mainFlow "MyPkg".data (Except.error "boom".data : Except (List Char) Unit)
        (fun _ => Except.ok ()) =
      ([CleanupAction.rmtree "MyPkg".data true], Except.error "boom".data) ∧
    mainFlow "MyPkg".data (Except.ok () : Except (List Char) Unit)
        (fun _ => Except.error "boom".data) =
      ([CleanupAction.rmtree "MyPkg".data true], Except.error "boom".data) :=
  ⟨(cleanup_on_failure "MyPkg".data (Except.error "boom".data)
      (fun _ => Except.ok ()) "boom".data).1 rfl,
   (cleanup_on_failure "MyPkg".data (Except.ok ())
      (fun _ => Except.error "boom".data) "boom".data).2 () rfl rfl⟩

/-- C9 is right about the intent and the code is wrong: `name_to_slug`
promises an all-lowercase result ("all of the text is lower case"), but on
`"MyURL"` — not all-uppercase, containing a run of uppercase letters — the
continuation of the run is appended unchanged, yielding `"my-uRL"`, which
contains uppercase characters. -/
theorem name_to_slug_uppercase_bug :
    name_to_slug "MyURL".data = "my-uRL".data ∧
    'R' ∈ name_to_slug "MyURL".data ∧ 'R'.isUpper = true := by
  decide

/-- C10: in an in-place job the temp-suffixed destination — the nominal
destination plus a dash and 12 characters drawn from `KEY_CHARACTERS` — is
always distinct from the source path, so `handle_template_file` is never
invoked with equal source and destination paths. -/
theorem temp_suffix_distinct (source destination file tag : List Char)
    (_hlen : tag.length = 12)
    (_htag : ∀ c ∈ tag, c ∈ KEY_CHARACTERS) :
    expandDst source destination file tag ≠ pathJoin source file := by
  rw [expandDst]
  split
  · rename_i h
    rw [← h]
    intro heq
    have hl := congrArg List.length heq
    simp only [tempDst, List.length_append, List.length_cons] at hl
    omega
  · rename_i h
    intro heq
    exact h heq.symm

theorem temp_suffix_distinct_witness :
    expandDst "/cwd/MyPkg".data "/cwd/MyPkg".data "a.txt".data
        "AB12CD34EF56".data ≠
      pathJoin "/cwd/MyPkg".data "a.txt".data :=
  temp_suffix_distinct "/cwd/MyPkg".data "/cwd/MyPkg".data "a.txt".data
    "AB12CD34EF56".data (by decide) (by decide)

end NewSublPkg

